import Mathlib

/-!
Verification of the GoMesh control-plane core (`pkg/controlplane`):
the `ConfigStore` (versioned routing table) and the control `Server`
(proxy registry, config streaming, broadcast fan-out).

The embedding follows the Go source.  Go slices are modelled explicitly
(a heap of backing arrays plus `(arrId, len, cap)` headers) so that the
aliasing behaviour of `append` — in-place write when capacity allows,
reallocation otherwise — is faithfully represented, including the case
where `UpdateConfig` stores a caller-supplied header that aliases a
previously returned snapshot's routes.  The store's version counter is
a wrapping `int64` (`wrap64`), as in Go.  Locking in
`BroadcastConfigUpdate` is modelled as an event trace so that "sends
happen inside/outside the read critical section" is expressible.
-/

/-- A routing rule (`pb.Route`): path, backend, auth flag, timeout. -/
structure Route where
  path : String
  backend : String
  authRequired : Bool
  timeoutMs : Nat
deriving DecidableEq, Repr

/-- The default route installed by `NewConfigStore`. -/
def defaultRoute : Route := ⟨"/", "localhost:3000", false, 5000⟩

/-- Zero value used to pad freshly grown backing arrays. -/
def zeroRoute : Route := ⟨"", "", false, 0⟩

/-- Wrapping two's-complement `int64` arithmetic: the value of a Go
`int64` after an overflowing computation. -/
def wrap64 (x : Int) : Int := (x + 2 ^ 63) % 2 ^ 64 - 2 ^ 63

/-- A Go slice header: backing-array id, length, capacity. -/
structure GoSlice where
  arrId : Nat
  len : Nat
  cap : Nat
deriving DecidableEq, Repr

/-- The heap of backing arrays (arrays are indexed by position). -/
abbrev Heap := List (List Route)

/-- The backing array with id `i` (empty if out of range). -/
def heapArr : Heap → Nat → List Route
  | [], _ => []
  | a :: _, 0 => a
  | _ :: h, n + 1 => heapArr h n

/-- The route sequence a slice header denotes: the first `len` cells of
its backing array. -/
def sliceView (h : Heap) (s : GoSlice) : List Route :=
  (heapArr h s.arrId).take s.len

/-- Allocate a fresh backing array holding `rs` (a Go slice literal). -/
def heapAlloc (h : Heap) (rs : List Route) : Heap × GoSlice :=
  (h ++ [rs], ⟨h.length, rs.length, rs.length⟩)

/-- Go `append(s, x)`: write in place when `len < cap`, otherwise copy
into a freshly allocated, larger backing array. -/
def heapAppend (h : Heap) (s : GoSlice) (x : Route) : Heap × GoSlice :=
  if s.len < s.cap then
    (h.set s.arrId ((heapArr h s.arrId).set s.len x), ⟨s.arrId, s.len + 1, s.cap⟩)
  else
    (h ++ [sliceView h s ++ [x] ++
       List.replicate (max (2 * s.cap) (s.len + 1) - (s.len + 1)) zeroRoute],
     ⟨h.length, s.len + 1, max (2 * s.cap) (s.len + 1)⟩)

/-- `ConfigStore`: version counter (a Go `int64`, kept in the wrapped
range `[-2^63, 2^63)` by `wrap64`) plus the current routes slice. -/
structure ConfigStore where
  version : Int
  routes : GoSlice
deriving DecidableEq, Repr

/-- `pb.ConfigUpdate`: the snapshot message handed to callers
(version plus a copy of the routes slice header). -/
structure ConfigUpdate where
  version : Int
  routes : GoSlice
deriving DecidableEq, Repr

/-- `NewConfigStore`: version 1, a single default route. -/
def NewConfigStore (h : Heap) : Heap × ConfigStore :=
  ((heapAlloc h [defaultRoute]).1, ⟨1, (heapAlloc h [defaultRoute]).2⟩)

/-- `ConfigStore.GetConfig`: return the current version and routes. -/
def ConfigStore.GetConfig (cs : ConfigStore) : ConfigUpdate :=
  ⟨cs.version, cs.routes⟩

/-- `ConfigStore.UpdateConfig`: increment the version (wrapping int64
arithmetic), store the caller's slice header unchanged — the header may
alias a previously returned snapshot's routes — and return the new
snapshot. -/
def ConfigStore.UpdateConfig (cs : ConfigStore) (routes : GoSlice) :
    ConfigStore × ConfigUpdate :=
  (⟨wrap64 (cs.version + 1), routes⟩, ⟨wrap64 (cs.version + 1), routes⟩)

/-- `ConfigStore.AddRoute`: increment the version (wrapping int64
arithmetic), append one route, return the new snapshot. -/
def ConfigStore.AddRoute (h : Heap) (cs : ConfigStore) (r : Route) :
    Heap × ConfigStore × ConfigUpdate :=
  ((heapAppend h cs.routes r).1,
   ⟨wrap64 (cs.version + 1), (heapAppend h cs.routes r).2⟩,
   ⟨wrap64 (cs.version + 1), (heapAppend h cs.routes r).2⟩)

/-- One call against the store.  `UpdateConfig` can be handed any slice
header a Go caller possesses: `update rs` passes a freshly built slice,
while `updateFromSnap i` passes back the `routes` header of the i-th
snapshot the store previously returned (the aliasing case). -/
inductive StoreOp where
  | get : StoreOp
  | update : List Route → StoreOp
  | updateFromSnap : Nat → StoreOp
  | add : Route → StoreOp
deriving DecidableEq, Repr

/-- Heap plus store: the state a sequence of store calls evolves. -/
abbrev StoreState := Heap × ConfigStore

/-- Execute one store call, yielding the new state and the snapshot
returned to the caller; `acc` is the list of snapshots returned so far,
from which `updateFromSnap` takes the header it passes back (an
out-of-range index degenerates to an empty fresh slice). -/
def stepStore : StoreState → List ConfigUpdate → StoreOp → StoreState × ConfigUpdate
  | (h, cs), _, .get => ((h, cs), cs.GetConfig)
  | (h, cs), _, .update rs =>
      (((heapAlloc h rs).1, (cs.UpdateConfig (heapAlloc h rs).2).1),
       (cs.UpdateConfig (heapAlloc h rs).2).2)
  | (h, cs), acc, .updateFromSnap i =>
      match acc[i]? with
      | some c => ((h, (cs.UpdateConfig c.routes).1), (cs.UpdateConfig c.routes).2)
      | none =>
          (((heapAlloc h []).1, (cs.UpdateConfig (heapAlloc h []).2).1),
           (cs.UpdateConfig (heapAlloc h []).2).2)
  | (h, cs), _, .add r =>
      (((cs.AddRoute h r).1, (cs.AddRoute h r).2.1), (cs.AddRoute h r).2.2)

/-- The state produced by `NewConfigStore` on an empty heap. -/
def initStore : StoreState :=
  ((NewConfigStore []).1, (NewConfigStore []).2)

/-- Execute a sequence of store calls, threading the list of snapshots
returned so far (so aliased updates can refer back to them). -/
def runStoreAux : StoreState → List ConfigUpdate → List StoreOp →
    StoreState × List ConfigUpdate
  | st, acc, [] => (st, acc)
  | st, acc, op :: ops =>
      runStoreAux (stepStore st acc op).1 (acc ++ [(stepStore st acc op).2]) ops

/-- Execute a sequence of store calls against a starting state,
collecting every snapshot returned along the way. -/
def runStore (st : StoreState) (ops : List StoreOp) : StoreState × List ConfigUpdate :=
  runStoreAux st [] ops

/-- Whether a store call mutates the store (`UpdateConfig`/`AddRoute`). -/
def isMut : StoreOp → Bool
  | .get => false
  | .update _ => true
  | .updateFromSnap _ => true
  | .add _ => true

/-- Whether a store call avoids passing back a previously returned
snapshot's slice header (every call except `updateFromSnap`). -/
def isFresh : StoreOp → Bool
  | .updateFromSnap _ => false
  | _ => true

/-- Number of mutating calls in a sequence. -/
def mutCount (ops : List StoreOp) : Nat := (ops.filter isMut).length

/-- Effect of one mutating call on the (pure) route sequence; only
meaningful for aliasing-free calls (`updateFromSnap`, whose effect
depends on the heap, is given a dummy value, and every theorem using
this function restricts to aliasing-free sequences). -/
def applyMut (acc : List Route) : StoreOp → List Route
  | .get => acc
  | .update rs => rs
  | .updateFromSnap _ => acc
  | .add r => acc ++ [r]

/-- The pure route sequence after the first `k` mutating calls of
`ops`, starting from the default configuration. -/
def routesAfter (k : Nat) (ops : List StoreOp) : List Route :=
  ((ops.filter isMut).take k).foldl applyMut [defaultRoute]

/-- The version values observed on `n` consecutive mutating calls
starting from version `v`: `v+1, v+2, …, v+n`. -/
def versionsFrom (v : Int) : Nat → List Int
  | 0 => []
  | n + 1 => (v + 1) :: versionsFrom (v + 1) n

/-- Well-formedness of the store's own slice: its backing array exists
and has exactly `cap` cells, with `len ≤ cap`. -/
def storeWF (st : StoreState) : Prop :=
  st.2.routes.arrId < st.1.length ∧
  st.2.routes.len ≤ st.2.routes.cap ∧
  (heapArr st.1 st.2.routes.arrId).length = st.2.routes.cap

/-- A published slice header is safe in a state: its array exists, and
if it shares the store's current backing array its length does not reach
past the store's current length (so in-place appends land beyond it). -/
def goodSlice (st : StoreState) (s : GoSlice) : Prop :=
  s.arrId < st.1.length ∧
  (s.arrId = st.2.routes.arrId → s.len ≤ st.2.routes.len)

/-- `pb.ProxyInfo`: a proxy's identity. -/
structure ProxyInfo where
  proxyId : String
  version : String
  listenAddr : String
deriving DecidableEq, Repr

/-- `ProxyConnection`: identity plus optional server-stream handle
(stream ids stand for `pb.MeshControl_StreamConfigServer` values;
`none` models a nil stream). -/
structure ProxyConnection where
  info : ProxyInfo
  stream : Option Nat
deriving DecidableEq, Repr

/-- `pb.RegistrationResponse`. -/
structure RegistrationResponse where
  success : Bool
  message : String
deriving DecidableEq, Repr

/-- The `proxies` map, as an association list with map semantics
(at most one entry per key; list order stands for Go's unspecified
map iteration order). -/
abbrev Registry := List (String × ProxyConnection)

/-- Go map insert: replaces any entry stored under the key. -/
def mapInsert (k : String) (v : ProxyConnection) (m : Registry) : Registry :=
  m.filter (fun e => e.1 != k) ++ [(k, v)]

/-- Go map delete: removes the entry stored under the key. -/
def mapDelete (k : String) (m : Registry) : Registry :=
  m.filter (fun e => e.1 != k)

/-- Go map lookup. -/
def mapLookup (k : String) (m : Registry) : Option ProxyConnection :=
  (m.find? (fun e => e.1 == k)).map (fun e => e.2)

/-- Every registry entry is stored under its own proxy id (true of all
states the server code can reach). -/
def regWFb (m : Registry) : Bool :=
  m.all (fun e => e.2.info.proxyId == e.1)

/-- The control-plane `Server`: config store (with its slice heap) and
the proxy registry. -/
structure Server where
  heap : Heap
  configStore : ConfigStore
  proxies : Registry
deriving Repr

/-- `NewServer`: fresh config store, empty registry. -/
def Server.NewServer : Server :=
  ⟨(NewConfigStore []).1, (NewConfigStore []).2, []⟩

/-- `RegisterProxy`: store an identity-only entry (nil stream) and
acknowledge; returns `(new server, response, error)`. -/
def Server.RegisterProxy (s : Server) (info : ProxyInfo) :
    Server × RegistrationResponse × Option String :=
  ({ s with proxies := mapInsert info.proxyId ⟨info, none⟩ s.proxies },
   ⟨true, "Proxy " ++ info.proxyId ++ " registered successfully!"⟩,
   none)

/-- The registry action `StreamConfig` performs on entry: store an
entry carrying this call's stream. -/
def Server.streamRegister (s : Server) (info : ProxyInfo) (streamId : Nat) : Server :=
  { s with proxies := mapInsert info.proxyId ⟨info, some streamId⟩ s.proxies }

/-- The deferred cleanup `StreamConfig` runs on every exit path:
delete the registry entry stored under the call's proxy id. -/
def Server.streamCleanup (s : Server) (proxyId : String) : Server :=
  { s with proxies := mapDelete proxyId s.proxies }

/-- Registry actions, recorded so "removed exactly once" is statable. -/
inductive RegAction where
  | put : String → RegAction
  | del : String → RegAction
deriving DecidableEq, Repr

/-- Number of deletions of `id` in a registry-action trace. -/
def countDel (id : String) : List RegAction → Nat
  | [] => 0
  | RegAction.del j :: tr => (if j = id then 1 else 0) + countDel id tr
  | _ :: tr => countDel id tr

/-- `StreamConfig`: register the entry (with stream), send the initial
snapshot (`oracle` gives each stream's transport behaviour:
`some err` = send fails), and on either the send-failure exit or the
context-cancellation exit run the deferred cleanup.  Returns the final
server, the call's error result, the messages handed to `stream.Send`,
and the trace of registry actions performed. -/
def Server.StreamConfig (s : Server) (info : ProxyInfo) (streamId : Nat)
    (oracle : Nat → ConfigUpdate → Option String) :
    Server × Option String × List ConfigUpdate × List RegAction :=
  match oracle streamId ((s.streamRegister info streamId).configStore.GetConfig) with
  | some err =>
      (((s.streamRegister info streamId).streamCleanup info.proxyId),
       some err,
       [(s.streamRegister info streamId).configStore.GetConfig],
       [RegAction.put info.proxyId, RegAction.del info.proxyId])
  | none =>
      (((s.streamRegister info streamId).streamCleanup info.proxyId),
       none,
       [(s.streamRegister info streamId).configStore.GetConfig],
       [RegAction.put info.proxyId, RegAction.del info.proxyId])

/-- Events of a broadcast call: read-lock acquire/release and each
`stream.Send` attempt (stream id, message, transport result). -/
inductive BEvent where
  | rlock : BEvent
  | send : Nat → ConfigUpdate → Option String → BEvent
  | runlock : BEvent
deriving DecidableEq, Repr

/-- The send attempts of the broadcast loop, in registry order: one per
entry whose stream is non-nil, skipping nil-stream entries. -/
def broadcastSends (m : Registry) (config : ConfigUpdate)
    (oracle : Nat → ConfigUpdate → Option String) : List BEvent :=
  m.filterMap (fun e =>
    e.2.stream.map (fun sid => BEvent.send sid config (oracle sid config)))

/-- `BroadcastConfigUpdate`: under `mu.RLock` (released by `defer` at
return), iterate the registry and attempt a send to every entry with a
non-nil stream; a failed send is only logged.  The server is returned
together with the event trace of the call. -/
def Server.BroadcastConfigUpdate (s : Server) (config : ConfigUpdate)
    (oracle : Nat → ConfigUpdate → Option String) : Server × List BEvent :=
  (s, BEvent.rlock :: (broadcastSends s.proxies config oracle ++ [BEvent.runlock]))

/-- `GetConnectedProxies`: the identities of all registry entries. -/
def Server.GetConnectedProxies (s : Server) : List ProxyInfo :=
  s.proxies.map (fun e => e.2.info)

/-- The `(stream, message)` pair of a send event. -/
def attemptOf : BEvent → Option (Nat × ConfigUpdate)
  | BEvent.send sid cfg _ => some (sid, cfg)
  | _ => none

/-- All send attempts recorded in an event trace. -/
def sendAttempts (tr : List BEvent) : List (Nat × ConfigUpdate) :=
  tr.filterMap attemptOf

/-- Holds when no send event happens while the read lock is held
(`d` = current lock depth): the spec's "sends outside the critical
section". -/
def noSendWhileLocked : Nat → List BEvent → Bool
  | _, [] => true
  | d, BEvent.rlock :: tr => noSendWhileLocked (d + 1) tr
  | d, BEvent.runlock :: tr => noSendWhileLocked (d - 1) tr
  | d, BEvent.send _ _ _ :: tr => (d == 0) && noSendWhileLocked d tr

/-- Holds when every send event happens while the read lock is held. -/
def allSendsWhileLocked : Nat → List BEvent → Bool
  | _, [] => true
  | d, BEvent.rlock :: tr => allSendsWhileLocked (d + 1) tr
  | d, BEvent.runlock :: tr => allSendsWhileLocked (d - 1) tr
  | d, BEvent.send _ _ _ :: tr => (d != 0) && allSendsWhileLocked d tr

/-- The route from scenario 1 of the spec's testable properties. -/
def routeApi : Route := ⟨"/api", "localhost:4000", false, 0⟩

/-- Further concrete routes, used in counterexample traces. -/
def routeB : Route := ⟨"/b", "localhost:5001", false, 0⟩

/-- Another concrete route for counterexample traces. -/
def routeC : Route := ⟨"/c", "localhost:5002", false, 0⟩

/-- Another concrete route for counterexample traces. -/
def routeD : Route := ⟨"/d", "localhost:5003", false, 0⟩

/-- A concrete proxy identity used in witnesses. -/
def infoP1 : ProxyInfo := ⟨"p1", "0.1.0", "127.0.0.1:8080"⟩

/-- A second identity sharing `infoP1`'s proxy id. -/
def infoP1b : ProxyInfo := ⟨"p1", "0.2.0", "127.0.0.1:9090"⟩

/-- A transport on which every send succeeds. -/
def oracleOk : Nat → ConfigUpdate → Option String := fun _ _ => none

/-- A transport on which every send fails. -/
def oracleFail : Nat → ConfigUpdate → Option String := fun _ _ => some "boom"

theorem heapArr_append_lt (h : Heap) (a : List Route) (i : Nat) (hi : i < h.length) :
    heapArr (h ++ [a]) i = heapArr h i := by
  induction h generalizing i with
  | nil => exact absurd hi (Nat.not_lt_zero i)
  | cons x xs ih =>
    cases i with
    | zero => rfl
    | succ n =>
      have hn : n < xs.length := by simpa using hi
      simpa [heapArr] using ih n hn

theorem heapArr_append_self (h : Heap) (a : List Route) :
    heapArr (h ++ [a]) h.length = a := by
  induction h with
  | nil => rfl
  | cons x xs ih => simpa [heapArr] using ih

theorem heapArr_set_ne (h : Heap) (i j : Nat) (a : List Route) (hij : i ≠ j) :
    heapArr (h.set i a) j = heapArr h j := by
  induction h generalizing i j with
  | nil => simp [List.set]
  | cons x xs ih =>
    cases i with
    | zero =>
      cases j with
      | zero => exact absurd rfl hij
      | succ m => simp [List.set, heapArr]
    | succ n =>
      cases j with
      | zero => simp [List.set, heapArr]
      | succ m =>
        have : n ≠ m := fun he => hij (by rw [he])
        simpa [List.set, heapArr] using ih n m this

theorem heapArr_set_self (h : Heap) (i : Nat) (a : List Route) (hi : i < h.length) :
    heapArr (h.set i a) i = a := by
  induction h generalizing i with
  | nil => exact absurd hi (Nat.not_lt_zero i)
  | cons x xs ih =>
    cases i with
    | zero => rfl
    | succ n =>
      have hn : n < xs.length := by simpa using hi
      simpa [List.set, heapArr] using ih n hn

theorem take_set_of_le {α : Type} (l : List α) (i n : Nat) (a : α) (hni : n ≤ i) :
    (l.set i a).take n = l.take n := by
  induction l generalizing i n with
  | nil => simp [List.set]
  | cons x xs ih =>
    cases n with
    | zero => simp
    | succ m =>
      cases i with
      | zero => exact absurd hni (by omega)
      | succ j =>
        have : m ≤ j := by omega
        simpa [List.set] using ih j m this

theorem take_set_succ {α : Type} (l : List α) (n : Nat) (a : α) (hn : n < l.length) :
    (l.set n a).take (n + 1) = l.take n ++ [a] := by
  induction l generalizing n with
  | nil => exact absurd hn (Nat.not_lt_zero n)
  | cons x xs ih =>
    cases n with
    | zero => simp [List.set]
    | succ m =>
      have hm : m < xs.length := by simpa using hn
      simpa [List.set] using ih m hm

theorem wrap64_range (x : Int) : -(2 ^ 63) ≤ wrap64 x ∧ wrap64 x < 2 ^ 63 := by
  unfold wrap64
  omega

theorem wrap64_eq_self (x : Int) (h1 : -(2 ^ 63) ≤ x) (h2 : x < 2 ^ 63) :
    wrap64 x = x := by
  unfold wrap64
  omega

theorem wrap64_add_left (x y : Int) : wrap64 (wrap64 x + y) = wrap64 (x + y) := by
  unfold wrap64
  omega

theorem runStoreAux_append (l1 l2 : List StoreOp) :
    ∀ (st : StoreState) (acc : List ConfigUpdate),
      runStoreAux st acc (l1 ++ l2)
        = runStoreAux (runStoreAux st acc l1).1 (runStoreAux st acc l1).2 l2 := by
  induction l1 with
  | nil => intro st acc; rfl
  | cons op ops ih =>
    intro st acc
    have hstep : runStoreAux st acc ((op :: ops) ++ l2)
        = runStoreAux (stepStore st acc op).1 (acc ++ [(stepStore st acc op).2]) (ops ++ l2) :=
      rfl
    have hstep2 : runStoreAux st acc (op :: ops)
        = runStoreAux (stepStore st acc op).1 (acc ++ [(stepStore st acc op).2]) ops := rfl
    rw [hstep, hstep2, ih]

theorem runStoreAux_singleton (st : StoreState) (acc : List ConfigUpdate) (op : StoreOp) :
    runStoreAux st acc [op] = ((stepStore st acc op).1, acc ++ [(stepStore st acc op).2]) := rfl

theorem mutCount_append (ops : List StoreOp) (op : StoreOp) :
    mutCount (ops ++ [op]) = mutCount ops + (if isMut op then 1 else 0) := by
  by_cases hm : isMut op <;>
    simp [mutCount, List.filter_append, List.filter, hm]

theorem routesAfter_early (k : Nat) (ops post : List StoreOp) (hk : k ≤ mutCount ops) :
    routesAfter k (ops ++ post) = routesAfter k ops := by
  unfold routesAfter
  rw [List.filter_append, List.take_append_of_le_length hk]

theorem routesAfter_snoc_mut (ops : List StoreOp) (op : StoreOp) (hm : isMut op = true) :
    routesAfter (mutCount ops + 1) (ops ++ [op])
      = applyMut (routesAfter (mutCount ops) ops) op := by
  unfold routesAfter
  rw [List.filter_append]
  have hfil : List.filter isMut [op] = [op] := by simp [List.filter, hm]
  rw [hfil]
  have hlen : mutCount ops + 1 = (ops.filter isMut ++ [op]).length := by
    simp [mutCount]
  rw [hlen, List.take_length, List.foldl_append]
  rw [mutCount, List.take_length]
  rfl

theorem routesAfter_snoc_get (k : Nat) (ops : List StoreOp) (op : StoreOp)
    (hm : isMut op = false) :
    routesAfter k (ops ++ [op]) = routesAfter k ops := by
  unfold routesAfter
  rw [List.filter_append]
  have hfil : List.filter isMut [op] = [] := by simp [List.filter, hm]
  rw [hfil, List.append_nil]

theorem stepStore_get (h : Heap) (cs : ConfigStore) (acc : List ConfigUpdate) :
    stepStore (h, cs) acc StoreOp.get = ((h, cs), ⟨cs.version, cs.routes⟩) := rfl

theorem stepStore_update (h : Heap) (cs : ConfigStore) (acc : List ConfigUpdate)
    (rs : List Route) :
    stepStore (h, cs) acc (StoreOp.update rs)
      = ((h ++ [rs], ⟨wrap64 (cs.version + 1), ⟨h.length, rs.length, rs.length⟩⟩),
         ⟨wrap64 (cs.version + 1), ⟨h.length, rs.length, rs.length⟩⟩) := rfl

theorem stepStore_add_inplace (h : Heap) (cs : ConfigStore) (acc : List ConfigUpdate)
    (r : Route) (hc : cs.routes.len < cs.routes.cap) :
    stepStore (h, cs) acc (StoreOp.add r)
      = ((h.set cs.routes.arrId ((heapArr h cs.routes.arrId).set cs.routes.len r),
          ⟨wrap64 (cs.version + 1), ⟨cs.routes.arrId, cs.routes.len + 1, cs.routes.cap⟩⟩),
         ⟨wrap64 (cs.version + 1), ⟨cs.routes.arrId, cs.routes.len + 1, cs.routes.cap⟩⟩) := by
  simp [stepStore, ConfigStore.AddRoute, heapAppend, hc]

theorem stepStore_add_grow (h : Heap) (cs : ConfigStore) (acc : List ConfigUpdate)
    (r : Route) (hc : ¬ cs.routes.len < cs.routes.cap) :
    stepStore (h, cs) acc (StoreOp.add r)
      = ((h ++ [sliceView h cs.routes ++ [r] ++
            List.replicate
              (max (2 * cs.routes.cap) (cs.routes.len + 1) - (cs.routes.len + 1)) zeroRoute],
          ⟨wrap64 (cs.version + 1),
           ⟨h.length, cs.routes.len + 1, max (2 * cs.routes.cap) (cs.routes.len + 1)⟩⟩),
         ⟨wrap64 (cs.version + 1),
          ⟨h.length, cs.routes.len + 1, max (2 * cs.routes.cap) (cs.routes.len + 1)⟩⟩) := by
  simp [stepStore, ConfigStore.AddRoute, heapAppend, hc]

theorem storeWF_iff (h : Heap) (cs : ConfigStore) :
    storeWF (h, cs) ↔
      cs.routes.arrId < h.length ∧
      cs.routes.len ≤ cs.routes.cap ∧
      (heapArr h cs.routes.arrId).length = cs.routes.cap := Iff.rfl

theorem goodSlice_iff (h : Heap) (cs : ConfigStore) (s : GoSlice) :
    goodSlice (h, cs) s ↔
      s.arrId < h.length ∧
      (s.arrId = cs.routes.arrId → s.len ≤ cs.routes.len) := Iff.rfl

theorem sliceView_mk (h : Heap) (a l c : Nat) :
    sliceView h ⟨a, l, c⟩ = (heapArr h a).take l := rfl

theorem stepStore_out (st : StoreState) (acc : List ConfigUpdate) (op : StoreOp) :
    (stepStore st acc op).2
      = ⟨(stepStore st acc op).1.2.version, (stepStore st acc op).1.2.routes⟩ := by
  obtain ⟨h, cs⟩ := st
  cases op with
  | get => rfl
  | update rs => rfl
  | updateFromSnap i =>
    cases hacc : acc[i]? with
    | none => simp [stepStore, hacc, ConfigStore.UpdateConfig]
    | some c => simp [stepStore, hacc, ConfigStore.UpdateConfig]
  | add r =>
    by_cases hc : cs.routes.len < cs.routes.cap
    · rw [stepStore_add_inplace h cs acc r hc]
    · rw [stepStore_add_grow h cs acc r hc]

theorem stepStore_version (st : StoreState) (acc : List ConfigUpdate) (op : StoreOp) :
    (stepStore st acc op).1.2.version
      = if isMut op then wrap64 (st.2.version + 1) else st.2.version := by
  obtain ⟨h, cs⟩ := st
  cases op with
  | get => simp [stepStore_get, isMut]
  | update rs => simp [stepStore_update, isMut]
  | updateFromSnap i =>
    cases hacc : acc[i]? with
    | none => simp [stepStore, hacc, ConfigStore.UpdateConfig, isMut]
    | some c => simp [stepStore, hacc, ConfigStore.UpdateConfig, isMut]
  | add r =>
    by_cases hc : cs.routes.len < cs.routes.cap
    · rw [stepStore_add_inplace h cs acc r hc]; simp [isMut]
    · rw [stepStore_add_grow h cs acc r hc]; simp [isMut]

theorem goodSlice_self (st : StoreState) (hwf : storeWF st) :
    goodSlice st st.2.routes :=
  ⟨hwf.1, fun _ => le_refl _⟩

theorem stepStore_wf (st : StoreState) (acc : List ConfigUpdate) (op : StoreOp)
    (hf : isFresh op = true) (hwf : storeWF st) :
    storeWF (stepStore st acc op).1 := by
  obtain ⟨h, cs⟩ := st
  rw [storeWF_iff] at hwf
  obtain ⟨w1, w2, w3⟩ := hwf
  cases op with
  | get => exact ⟨w1, w2, w3⟩
  | updateFromSnap i => simp [isFresh] at hf
  | update rs =>
    rw [stepStore_update, storeWF_iff]
    refine ⟨by simp, le_refl _, ?_⟩
    simp [heapArr_append_self]
  | add r =>
    by_cases hc : cs.routes.len < cs.routes.cap
    · rw [stepStore_add_inplace h cs acc r hc, storeWF_iff]
      refine ⟨by simpa using w1, by show cs.routes.len + 1 ≤ cs.routes.cap; omega, ?_⟩
      rw [heapArr_set_self h _ _ w1]
      simpa using w3
    · have hmax : cs.routes.len + 1 ≤ max (2 * cs.routes.cap) (cs.routes.len + 1) :=
        le_max_right _ _
      have hv : (sliceView h cs.routes).length = cs.routes.len := by
        simp [sliceView, List.length_take, w3]
        omega
      rw [stepStore_add_grow h cs acc r hc, storeWF_iff]
      refine ⟨by simp, hmax, ?_⟩
      rw [heapArr_append_self]
      simp [List.length_append, hv]
      omega

theorem stepStore_preserve (st : StoreState) (acc : List ConfigUpdate) (op : StoreOp)
    (c : GoSlice) (hf : isFresh op = true) (hwf : storeWF st) (hg : goodSlice st c) :
    goodSlice (stepStore st acc op).1 c ∧
      sliceView (stepStore st acc op).1.1 c = sliceView st.1 c := by
  obtain ⟨h, cs⟩ := st
  rw [storeWF_iff] at hwf
  obtain ⟨w1, w2, w3⟩ := hwf
  rw [goodSlice_iff] at hg
  obtain ⟨g1, g2⟩ := hg
  cases op with
  | get => exact ⟨⟨g1, g2⟩, rfl⟩
  | updateFromSnap i => simp [isFresh] at hf
  | update rs =>
    rw [stepStore_update]
    constructor
    · rw [goodSlice_iff]
      refine ⟨by simp; omega, ?_⟩
      intro he
      simp at he
      omega
    · show (heapArr (h ++ [rs]) c.arrId).take c.len = (heapArr h c.arrId).take c.len
      rw [heapArr_append_lt h rs c.arrId g1]
  | add r =>
    by_cases hc : cs.routes.len < cs.routes.cap
    · rw [stepStore_add_inplace h cs acc r hc]
      by_cases he : c.arrId = cs.routes.arrId
      · have hle : c.len ≤ cs.routes.len := g2 he
        constructor
        · rw [goodSlice_iff]
          exact ⟨by simpa using g1, fun _ => by simp; omega⟩
        · show (heapArr (h.set cs.routes.arrId _) c.arrId).take c.len
            = (heapArr h c.arrId).take c.len
          rw [he, heapArr_set_self h _ _ w1, take_set_of_le _ _ _ _ hle]
      · constructor
        · rw [goodSlice_iff]
          refine ⟨by simpa using g1, ?_⟩
          intro he2
          simp at he2
          exact absurd he2 he
        · show (heapArr (h.set cs.routes.arrId _) c.arrId).take c.len
            = (heapArr h c.arrId).take c.len
          rw [heapArr_set_ne h _ _ _ (fun hx => he hx.symm)]
    · rw [stepStore_add_grow h cs acc r hc]
      constructor
      · rw [goodSlice_iff]
        refine ⟨by simp; omega, ?_⟩
        intro he2
        simp at he2
        omega
      · show (heapArr (h ++ [_]) c.arrId).take c.len = (heapArr h c.arrId).take c.len
        rw [heapArr_append_lt _ _ _ g1]

theorem stepStore_view (st : StoreState) (acc : List ConfigUpdate) (op : StoreOp)
    (hf : isFresh op = true) (hwf : storeWF st) :
    sliceView (stepStore st acc op).1.1 (stepStore st acc op).1.2.routes
      = applyMut (sliceView st.1 st.2.routes) op := by
  obtain ⟨h, cs⟩ := st
  rw [storeWF_iff] at hwf
  obtain ⟨w1, w2, w3⟩ := hwf
  cases op with
  | get => rfl
  | updateFromSnap i => simp [isFresh] at hf
  | update rs =>
    rw [stepStore_update]
    show (heapArr (h ++ [rs]) h.length).take rs.length = rs
    rw [heapArr_append_self, List.take_length]
  | add r =>
    by_cases hc : cs.routes.len < cs.routes.cap
    · rw [stepStore_add_inplace h cs acc r hc]
      show (heapArr (h.set cs.routes.arrId _) cs.routes.arrId).take (cs.routes.len + 1)
        = (heapArr h cs.routes.arrId).take cs.routes.len ++ [r]
      rw [heapArr_set_self h _ _ w1, take_set_succ _ _ _ (by omega)]
    · have hv : (sliceView h cs.routes).length = cs.routes.len := by
        simp [sliceView, List.length_take, w3]
        omega
      rw [stepStore_add_grow h cs acc r hc]
      show (heapArr (h ++ [_]) h.length).take (cs.routes.len + 1)
        = sliceView h cs.routes ++ [r]
      rw [heapArr_append_self]
      have hle1 : cs.routes.len + 1 ≤ (sliceView h cs.routes ++ [r]).length := by
        simp [List.length_append]; omega
      rw [List.take_append_of_le_length hle1]
      have h2 : cs.routes.len + 1 = (sliceView h cs.routes ++ [r]).length := by
        simp [List.length_append]; omega
      rw [h2, List.take_length]

theorem mutCount_mono (ops : List StoreOp) (op : StoreOp) :
    mutCount ops ≤ mutCount (ops ++ [op]) := by
  rw [mutCount_append]
  split <;> omega

theorem runStoreAux_preserve (ops : List StoreOp) :
    ∀ (st : StoreState) (acc : List ConfigUpdate) (c : GoSlice),
      ops.all isFresh = true → storeWF st → goodSlice st c →
      storeWF (runStoreAux st acc ops).1
      ∧ goodSlice (runStoreAux st acc ops).1 c
      ∧ sliceView (runStoreAux st acc ops).1.1 c = sliceView st.1 c := by
  induction ops with
  | nil => intro st acc c _ hwf hg; exact ⟨hwf, hg, rfl⟩
  | cons op ops ih =>
    intro st acc c hall hwf hg
    rw [List.all_cons, Bool.and_eq_true] at hall
    have hop : isFresh op = true := hall.1
    have hrest : ops.all isFresh = true := hall.2
    have hpres := stepStore_preserve st acc op c hop hwf hg
    have hwf2 := stepStore_wf st acc op hop hwf
    have hrec := ih (stepStore st acc op).1 (acc ++ [(stepStore st acc op).2]) c hrest hwf2
      hpres.1
    have hstep : runStoreAux st acc (op :: ops)
        = runStoreAux (stepStore st acc op).1 (acc ++ [(stepStore st acc op).2]) ops := rfl
    rw [hstep]
    exact ⟨hrec.1, hrec.2.1, by rw [hrec.2.2, hpres.2]⟩

theorem storeInv (ops : List StoreOp) (hf : ops.all isFresh = true) :
    storeWF (runStore initStore ops).1
  ∧ (runStore initStore ops).1.2.version = wrap64 (1 + (mutCount ops : Int))
  ∧ sliceView (runStore initStore ops).1.1 (runStore initStore ops).1.2.routes
      = routesAfter (mutCount ops) ops
  ∧ ∀ c ∈ (runStore initStore ops).2,
      ∃ k, k ≤ mutCount ops ∧ c.version = wrap64 (1 + (k : Int))
        ∧ goodSlice (runStore initStore ops).1 c.routes
        ∧ sliceView (runStore initStore ops).1.1 c.routes = routesAfter k ops := by
  revert hf
  induction ops using List.reverseRecOn with
  | nil =>
    intro _
    refine ⟨⟨by decide, by decide, by decide⟩, by decide, by decide, ?_⟩
    intro c hc
    exact absurd hc (List.not_mem_nil c)
  | append_singleton ops op ih =>
    intro hf
    rw [List.all_append, Bool.and_eq_true] at hf
    have hf1 : ops.all isFresh = true := hf.1
    have hf2 : isFresh op = true := by
      have := hf.2
      simpa using this
    obtain ⟨ih1, ih2, ih3, ih4⟩ := ih hf1
    simp only [runStore] at ih1 ih2 ih3 ih4 ⊢
    have key : runStoreAux initStore [] (ops ++ [op])
        = ((stepStore (runStoreAux initStore [] ops).1 (runStoreAux initStore [] ops).2 op).1,
           (runStoreAux initStore [] ops).2
             ++ [(stepStore (runStoreAux initStore [] ops).1
                   (runStoreAux initStore [] ops).2 op).2]) := by
      rw [runStoreAux_append, runStoreAux_singleton]
    have hwf2 := stepStore_wf (runStoreAux initStore [] ops).1 (runStoreAux initStore [] ops).2
      op hf2 ih1
    have hver : (stepStore (runStoreAux initStore [] ops).1
          (runStoreAux initStore [] ops).2 op).1.2.version
        = wrap64 (1 + (mutCount (ops ++ [op]) : Int)) := by
      rw [stepStore_version]
      by_cases hm : isMut op
      · rw [if_pos hm, ih2, wrap64_add_left, mutCount_append, if_pos hm]
        congr 1
      · rw [if_neg hm, ih2, mutCount_append, if_neg hm]
        norm_num
    have hview3 : sliceView (stepStore (runStoreAux initStore [] ops).1
            (runStoreAux initStore [] ops).2 op).1.1
          (stepStore (runStoreAux initStore [] ops).1
            (runStoreAux initStore [] ops).2 op).1.2.routes
        = routesAfter (mutCount (ops ++ [op])) (ops ++ [op]) := by
      rw [stepStore_view (runStoreAux initStore [] ops).1 (runStoreAux initStore [] ops).2
        op hf2 ih1, ih3]
      by_cases hm : isMut op
      · rw [mutCount_append, if_pos hm, routesAfter_snoc_mut ops op hm]
      · have hop : op = StoreOp.get := by
          cases op with
          | get => rfl
          | update rs => simp [isMut] at hm
          | updateFromSnap i => simp [isFresh] at hf2
          | add r => simp [isMut] at hm
        subst hop
        rw [mutCount_append]
        simp only [isMut, Bool.false_eq_true, if_false, Nat.add_zero]
        rw [routesAfter_snoc_get (mutCount ops) ops StoreOp.get rfl]
        rfl
    rw [key]
    refine ⟨hwf2, hver, hview3, ?_⟩
    intro c hc
    rw [List.mem_append] at hc
    cases hc with
    | inl hold =>
      obtain ⟨k, hk, hv, hgood, hview⟩ := ih4 c hold
      have hmono := mutCount_mono ops op
      refine ⟨k, by omega, hv, ?_, ?_⟩
      · exact (stepStore_preserve (runStoreAux initStore [] ops).1
          (runStoreAux initStore [] ops).2 op c.routes hf2 ih1 hgood).1
      · rw [(stepStore_preserve (runStoreAux initStore [] ops).1
          (runStoreAux initStore [] ops).2 op c.routes hf2 ih1 hgood).2, hview]
        exact (routesAfter_early k ops [op] hk).symm
    | inr hnew =>
      have hc2 : c = (stepStore (runStoreAux initStore [] ops).1
          (runStoreAux initStore [] ops).2 op).2 := by simpa using hnew
      subst hc2
      refine ⟨mutCount (ops ++ [op]), le_refl _, ?_, ?_, ?_⟩
      · rw [stepStore_out]
        exact hver
      · rw [stepStore_out]
        exact goodSlice_self _ hwf2
      · rw [stepStore_out]
        exact hview3

theorem find?_filter_ne (k : String) (m : Registry) :
    (m.filter (fun e => e.1 != k)).find? (fun e => e.1 == k) = none := by
  induction m with
  | nil => rfl
  | cons e m ih =>
    by_cases he : e.1 = k
    · simpa [List.filter_cons, he] using ih
    · simpa [List.filter_cons, List.find?, he] using ih

theorem mapLookup_mapDelete (k : String) (m : Registry) :
    mapLookup k (mapDelete k m) = none := by
  simp [mapLookup, mapDelete, find?_filter_ne]

theorem mapLookup_mapInsert_self (k : String) (v : ProxyConnection) (m : Registry) :
    mapLookup k (mapInsert k v m) = some v := by
  induction m with
  | nil => simp [mapLookup, mapInsert, List.find?]
  | cons e m ih =>
    by_cases he : e.1 = k
    · simpa [mapInsert, List.filter_cons, he] using ih
    · simpa [mapInsert, mapLookup, List.filter_cons, List.find?, he] using ih

theorem regWFb_mapInsert (k : String) (v : ProxyConnection) (m : Registry)
    (hm : regWFb m = true) (hv : v.info.proxyId = k) :
    regWFb (mapInsert k v m) = true := by
  rw [regWFb, List.all_eq_true] at hm
  rw [regWFb, List.all_eq_true]
  intro e he
  rw [mapInsert, List.mem_append] at he
  cases he with
  | inl h1 => exact hm e (List.mem_of_mem_filter h1)
  | inr h2 =>
    have : e = (k, v) := by simpa using h2
    subst this
    simpa using hv

theorem getConnected_all_ne (k : String) (m : Registry) (hm : regWFb m = true) :
    ((mapDelete k m).map (fun e => e.2.info)).all (fun p => p.proxyId != k) = true := by
  rw [List.all_eq_true]
  intro p hp
  rw [List.mem_map] at hp
  obtain ⟨e, he, hpe⟩ := hp
  rw [mapDelete] at he
  have h1 := List.of_mem_filter he
  have h2 : (e.2.info.proxyId == e.1) = true := by
    rw [regWFb, List.all_eq_true] at hm
    exact hm e (List.mem_of_mem_filter he)
  subst hpe
  simp only [bne_iff_ne, ne_eq, beq_iff_eq] at h1 h2 ⊢
  rw [h2]
  exact h1

theorem runStoreAux_mut_versions (ops : List StoreOp) :
    ∀ (st : StoreState) (acc : List ConfigUpdate),
      (∀ op ∈ ops, isMut op = true) →
      -(2 ^ 63) ≤ st.2.version →
      st.2.version + ops.length ≤ 2 ^ 63 - 1 →
      (runStoreAux st acc ops).2.map ConfigUpdate.version
        = acc.map ConfigUpdate.version ++ versionsFrom st.2.version ops.length := by
  induction ops with
  | nil =>
    intro st acc _ _ _
    simp [runStoreAux, versionsFrom]
  | cons op ops ih =>
    intro st acc hall h1 h2
    have hop : isMut op = true := hall op (List.mem_cons_self op ops)
    have hrest : ∀ o ∈ ops, isMut o = true :=
      fun o ho => hall o (List.mem_cons_of_mem op ho)
    have hlc : (op :: ops).length = ops.length + 1 := rfl
    rw [hlc] at h2
    push_cast at h2
    have hv : (stepStore st acc op).1.2.version = st.2.version + 1 := by
      rw [stepStore_version, if_pos hop]
      exact wrap64_eq_self _ (by omega) (by omega)
    have hstep : runStoreAux st acc (op :: ops)
        = runStoreAux (stepStore st acc op).1 (acc ++ [(stepStore st acc op).2]) ops := rfl
    rw [hstep, ih (stepStore st acc op).1 (acc ++ [(stepStore st acc op).2]) hrest
      (by rw [hv]; omega) (by rw [hv]; omega)]
    have hout : (stepStore st acc op).2.version = st.2.version + 1 := by
      rw [stepStore_out]
      exact hv
    rw [List.map_append, hv]
    simp only [List.map_cons, List.map_nil, hout]
    rw [List.append_assoc]
    rfl

theorem runStoreAux_replicate_add_version (n : Nat) :
    ∀ (st : StoreState) (acc : List ConfigUpdate) (r : Route),
      -(2 ^ 63) ≤ st.2.version → st.2.version < 2 ^ 63 →
      (runStoreAux st acc (List.replicate n (StoreOp.add r))).1.2.version
        = wrap64 (st.2.version + n) := by
  induction n with
  | zero =>
    intro st acc r h1 h2
    simp only [List.replicate_zero, Nat.cast_zero, add_zero]
    exact (wrap64_eq_self st.2.version h1 h2).symm
  | succ n ih =>
    intro st acc r h1 h2
    rw [List.replicate_succ]
    have hstep : runStoreAux st acc (StoreOp.add r :: List.replicate n (StoreOp.add r))
        = runStoreAux (stepStore st acc (StoreOp.add r)).1
            (acc ++ [(stepStore st acc (StoreOp.add r)).2])
            (List.replicate n (StoreOp.add r)) := rfl
    rw [hstep]
    have hv : (stepStore st acc (StoreOp.add r)).1.2.version = wrap64 (st.2.version + 1) := by
      rw [stepStore_version, if_pos (show isMut (StoreOp.add r) = true from rfl)]
    rw [ih _ _ r (by rw [hv]; exact (wrap64_range _).1) (by rw [hv]; exact (wrap64_range _).2)]
    rw [hv, wrap64_add_left]
    congr 1
    push_cast
    ring

theorem chain_versionsFrom (n : Nat) : ∀ v : Int,
    List.Chain' (fun a b => b = a + 1) (v :: versionsFrom v n) := by
  induction n with
  | zero => intro v; simp [versionsFrom]
  | succ n ih =>
    intro v
    rw [versionsFrom, List.chain'_cons]
    exact ⟨rfl, ih (v + 1)⟩

theorem allSendsWhileLocked_sends (config : ConfigUpdate)
    (oracle : Nat → ConfigUpdate → Option String) (m : Registry) :
    ∀ d : Nat, d ≠ 0 →
      allSendsWhileLocked d (broadcastSends m config oracle ++ [BEvent.runlock]) = true := by
  induction m with
  | nil => intro d _; rfl
  | cons e m ih =>
    intro d hd
    cases hs : e.2.stream with
    | none =>
      simp only [broadcastSends, List.filterMap_cons, hs, Option.map_none']
      exact ih d hd
    | some sid =>
      simp only [broadcastSends, List.filterMap_cons, hs, Option.map_some', List.cons_append]
      rw [allSendsWhileLocked]
      have := ih d hd
      rw [broadcastSends] at this
      simp [hd, this]

theorem sendAttempts_sends (config : ConfigUpdate)
    (oracle : Nat → ConfigUpdate → Option String) (m : Registry) :
    sendAttempts (broadcastSends m config oracle)
      = m.filterMap (fun e => e.2.stream.map (fun sid => (sid, config))) := by
  induction m with
  | nil => rfl
  | cons e m ih =>
    cases hs : e.2.stream with
    | none =>
      simp only [broadcastSends, List.filterMap_cons, hs, Option.map_none'] at ih ⊢
      exact ih
    | some sid =>
      simp only [broadcastSends, sendAttempts, List.filterMap_cons, hs, Option.map_some',
        attemptOf] at ih ⊢
      rw [ih]

theorem sendAttempts_broadcast (s : Server) (config : ConfigUpdate)
    (oracle : Nat → ConfigUpdate → Option String) :
    sendAttempts (s.BroadcastConfigUpdate config oracle).2
      = s.proxies.filterMap (fun e => e.2.stream.map (fun sid => (sid, config))) := by
  rw [Server.BroadcastConfigUpdate]
  show sendAttempts (BEvent.rlock :: (broadcastSends s.proxies config oracle ++ [BEvent.runlock]))
    = _
  rw [sendAttempts, List.filterMap_cons]
  simp only [attemptOf]
  rw [List.filterMap_append]
  simp only [List.filterMap_cons, List.filterMap_nil, attemptOf, List.append_nil]
  exact sendAttempts_sends config oracle s.proxies

/-- C1 (amended): provided every UpdateConfig call in the sequence is
given a freshly allocated routes slice — never a previously returned
snapshot's routes header — a snapshot returned by
GetConfig/UpdateConfig/AddRoute is never mutated by later store
operations (its visible route sequence under the final heap equals the
one at emission time), and within any such sequence of fewer than 2^64
mutations any two snapshots carrying the same version value denote the
same route sequence. -/
theorem configSnapshot_immutable :
    (∀ (pre post : List StoreOp) (c : ConfigUpdate),
        (pre ++ post).all isFresh = true →
        c ∈ (runStore initStore pre).2 →
        sliceView (runStore initStore (pre ++ post)).1.1 c.routes
          = sliceView (runStore initStore pre).1.1 c.routes)
  ∧ (∀ (ops : List StoreOp) (c c2 : ConfigUpdate),
        ops.all isFresh = true → mutCount ops < 2 ^ 64 →
        c ∈ (runStore initStore ops).2 → c2 ∈ (runStore initStore ops).2 →
        c.version = c2.version →
        sliceView (runStore initStore ops).1.1 c.routes
          = sliceView (runStore initStore ops).1.1 c2.routes) := by
  constructor
  · intro pre post c hall hc
    rw [List.all_append, Bool.and_eq_true] at hall
    have hpre : pre.all isFresh = true := hall.1
    have hpost : post.all isFresh = true := hall.2
    obtain ⟨k, hk, hv, hgood, hview⟩ := (storeInv pre hpre).2.2.2 c hc
    have hwfpre := (storeInv pre hpre).1
    have key : runStore initStore (pre ++ post)
        = runStoreAux (runStore initStore pre).1 (runStore initStore pre).2 post := by
      rw [runStore, runStore, runStoreAux_append]
    rw [key]
    exact (runStoreAux_preserve post (runStore initStore pre).1 (runStore initStore pre).2
      c.routes hpost hwfpre hgood).2.2
  · intro ops c c2 hall hbound hc hc2 hv
    obtain ⟨k, hk, hkv, _, hview⟩ := (storeInv ops hall).2.2.2 c hc
    obtain ⟨k2, hk2, hkv2, _, hview2⟩ := (storeInv ops hall).2.2.2 c2 hc2
    have hkk : k = k2 := by
      rw [hkv, hkv2] at hv
      unfold wrap64 at hv
      omega
    subst hkk
    rw [hview, hview2]

/-- C1 counterexample: the claim fails as originally stated, over all
store-call sequences.  Three AddRoute calls publish the version-4
snapshot with routes slice `⟨2, 4, 4⟩` and visible sequence
[/, /api, /b, /c]; passing the version-3 snapshot's routes header back
through UpdateConfig (Go's `cs.routes = routes` keeps the alias) makes
the next AddRoute write the shared backing array in place, so the
already-published version-4 snapshot's visible sequence changes to
[/, /api, /b, /d]. -/
theorem snapshot_aliasing_counterexample :
    ((⟨4, ⟨2, 4, 4⟩⟩ : ConfigUpdate)
        ∈ (runStore initStore
            [StoreOp.add routeApi, StoreOp.add routeB, StoreOp.add routeC]).2)
  ∧ sliceView (runStore initStore
        ([StoreOp.add routeApi, StoreOp.add routeB, StoreOp.add routeC]
          ++ [StoreOp.updateFromSnap 1, StoreOp.add routeD])).1.1 (⟨2, 4, 4⟩ : GoSlice)
      ≠ sliceView (runStore initStore
          [StoreOp.add routeApi, StoreOp.add routeB, StoreOp.add routeC]).1.1
          (⟨2, 4, 4⟩ : GoSlice) := by
  decide

/-- Witness for C1: a fresh-slice-only run in which the snapshot
returned by the initial GetConfig keeps its single default route after
a later AddRoute. -/
theorem configSnapshot_immutable_witness :
    (([StoreOp.get] ++ [StoreOp.add routeApi]).all isFresh = true)
  ∧ ((⟨1, ⟨0, 1, 1⟩⟩ : ConfigUpdate) ∈ (runStore initStore [StoreOp.get]).2)
  ∧ sliceView (runStore initStore ([StoreOp.get] ++ [StoreOp.add routeApi])).1.1
        (⟨0, 1, 1⟩ : GoSlice)
      = sliceView (runStore initStore [StoreOp.get]).1.1 (⟨0, 1, 1⟩ : GoSlice) :=
  ⟨by decide, by decide,
   configSnapshot_immutable.1 [StoreOp.get] [StoreOp.add routeApi] ⟨1, ⟨0, 1, 1⟩⟩
     (by decide) (by decide)⟩

/-- C2 (amended): the store starts at version 1 and every
UpdateConfig/AddRoute call increments the version by exactly one in
wrapping int64 arithmetic — hence by exactly one whenever the version
has not reached 2^63 - 1 — and on every sequence of at most 2^63 - 2
mutating calls the observed version sequence is the consecutive run
2, 3, …, strictly increasing and gapless from the initial value. -/
theorem version_monotone_gapless :
    initStore.2.version = 1
  ∧ (∀ (st : StoreState) (acc : List ConfigUpdate) (op : StoreOp), isMut op = true →
        (stepStore st acc op).1.2.version = wrap64 (st.2.version + 1))
  ∧ (∀ (st : StoreState) (acc : List ConfigUpdate) (op : StoreOp), isMut op = true →
        -(2 ^ 63) ≤ st.2.version → st.2.version < 2 ^ 63 - 1 →
        (stepStore st acc op).1.2.version = st.2.version + 1)
  ∧ (∀ ops : List StoreOp, (∀ op ∈ ops, isMut op = true) →
        ((ops.length : Int) ≤ 2 ^ 63 - 2) →
        (runStore initStore ops).2.map ConfigUpdate.version
          = versionsFrom initStore.2.version ops.length)
  ∧ (∀ ops : List StoreOp, (∀ op ∈ ops, isMut op = true) →
        ((ops.length : Int) ≤ 2 ^ 63 - 2) →
        List.Chain' (fun a b => b = a + 1)
          (initStore.2.version :: (runStore initStore ops).2.map ConfigUpdate.version)) := by
  have hmap : ∀ ops : List StoreOp, (∀ op ∈ ops, isMut op = true) →
      ((ops.length : Int) ≤ 2 ^ 63 - 2) →
      (runStore initStore ops).2.map ConfigUpdate.version
        = versionsFrom initStore.2.version ops.length := by
    intro ops hall hlen
    rw [runStore]
    rw [runStoreAux_mut_versions ops initStore [] hall (by decide)
      (by show (1 : Int) + (ops.length : Int) ≤ 2 ^ 63 - 1; omega)]
    simp
  refine ⟨rfl, ?_, ?_, hmap, ?_⟩
  · intro st acc op hm
    rw [stepStore_version, if_pos hm]
  · intro st acc op hm h1 h2
    rw [stepStore_version, if_pos hm]
    exact wrap64_eq_self _ (by omega) (by omega)
  · intro ops hall hlen
    rw [hmap ops hall hlen]
    exact chain_versionsFrom ops.length initStore.2.version

/-- C2 counterexample: the claim fails as originally stated, with no
overflow bound.  After 2^63 - 2 AddRoute calls the version is
2^63 - 1; the next AddRoute — a mutating call on that reachable store —
wraps the int64 version to -(2^63) instead of incrementing it by one,
so the observed version sequence of that call sequence is neither
strictly increasing nor gapless. -/
theorem version_wrap_counterexample :
    (runStore initStore (List.replicate (2 ^ 63 - 2) (StoreOp.add routeApi))).1.2.version
      = 2 ^ 63 - 1
  ∧ isMut (StoreOp.add routeApi) = true
  ∧ (stepStore (runStore initStore (List.replicate (2 ^ 63 - 2) (StoreOp.add routeApi))).1
        (runStore initStore (List.replicate (2 ^ 63 - 2) (StoreOp.add routeApi))).2
        (StoreOp.add routeApi)).1.2.version = -(2 ^ 63)
  ∧ ((-(2 ^ 63) : Int) ≠ (2 ^ 63 - 1) + 1) := by
  have hrep : (runStore initStore
        (List.replicate (2 ^ 63 - 2) (StoreOp.add routeApi))).1.2.version = 2 ^ 63 - 1 := by
    rw [runStore, runStoreAux_replicate_add_version (2 ^ 63 - 2) initStore [] routeApi
      (by decide) (by decide)]
    have hcast : ((2 ^ 63 - 2 : Nat) : Int) = 2 ^ 63 - 2 := by push_cast
    have hone : initStore.2.version = (1 : Int) := rfl
    rw [hone, hcast]
    unfold wrap64
    omega
  refine ⟨hrep, rfl, ?_, by decide⟩
  rw [stepStore_version, if_pos (show isMut (StoreOp.add routeApi) = true from rfl), hrep]
  decide

/-- Witness for C2: one AddRoute bumps version 1 to 2 (no wrap), and a
two-call mutation sequence observes versions [2, 3]. -/
theorem version_monotone_gapless_witness :
    (isMut (StoreOp.add routeApi) = true
      ∧ -(2 ^ 63) ≤ initStore.2.version ∧ initStore.2.version < 2 ^ 63 - 1
      ∧ (stepStore initStore [] (StoreOp.add routeApi)).1.2.version
          = initStore.2.version + 1)
  ∧ ((∀ op ∈ [StoreOp.add routeApi, StoreOp.update []], isMut op = true)
      ∧ (([StoreOp.add routeApi, StoreOp.update []].length : Int) ≤ 2 ^ 63 - 2)
      ∧ (runStore initStore [StoreOp.add routeApi, StoreOp.update []]).2.map
            ConfigUpdate.version
          = versionsFrom initStore.2.version 2) :=
  ⟨⟨rfl, by decide, by decide,
    version_monotone_gapless.2.2.1 initStore [] (StoreOp.add routeApi) rfl
      (by decide) (by decide)⟩,
   ⟨by decide, by decide,
    version_monotone_gapless.2.2.2.1 [StoreOp.add routeApi, StoreOp.update []]
      (by decide) (by decide)⟩⟩

/-- C3: on every exit path of StreamConfig (send failure or context
cancellation) the deferred cleanup deletes the registry entry for the
call's proxy id exactly once, so afterwards neither the registry nor
GetConnectedProxies contains that proxy id. -/
theorem streamconfig_cleanup (s : Server) (info : ProxyInfo) (sid : Nat)
    (oracle : Nat → ConfigUpdate → Option String)
    (hwf : regWFb s.proxies = true) :
    mapLookup info.proxyId (s.StreamConfig info sid oracle).1.proxies = none
  ∧ ((s.StreamConfig info sid oracle).1.GetConnectedProxies).all
        (fun p => p.proxyId != info.proxyId) = true
  ∧ countDel info.proxyId (s.StreamConfig info sid oracle).2.2.2 = 1 := by
  have hfinal : (s.StreamConfig info sid oracle).1
      = (s.streamRegister info sid).streamCleanup info.proxyId := by
    rw [Server.StreamConfig]
    cases oracle sid ((s.streamRegister info sid).configStore.GetConfig) <;> rfl
  have htrace : (s.StreamConfig info sid oracle).2.2.2
      = [RegAction.put info.proxyId, RegAction.del info.proxyId] := by
    rw [Server.StreamConfig]
    cases oracle sid ((s.streamRegister info sid).configStore.GetConfig) <;> rfl
  refine ⟨?_, ?_, ?_⟩
  · rw [hfinal]
    exact mapLookup_mapDelete info.proxyId _
  · rw [hfinal]
    exact getConnected_all_ne info.proxyId _ (regWFb_mapInsert _ _ _ hwf rfl)
  · rw [htrace]
    simp [countDel]

/-- Witness for C3 on a fresh server. -/
theorem streamconfig_cleanup_witness :
    regWFb Server.NewServer.proxies = true
  ∧ mapLookup infoP1.proxyId
        (Server.NewServer.StreamConfig infoP1 0 oracleOk).1.proxies = none :=
  ⟨rfl, (streamconfig_cleanup Server.NewServer infoP1 0 oracleOk rfl).1⟩

/-- C4: a broadcast attempts to send the exact supplied snapshot to
every registry entry with a non-nil stream and to no entry with a nil
stream, and the attempts made do not depend on which sends fail. -/
theorem broadcast_targets (s : Server) (config : ConfigUpdate)
    (oracle oracle2 : Nat → ConfigUpdate → Option String) :
    sendAttempts (s.BroadcastConfigUpdate config oracle).2
        = s.proxies.filterMap (fun e => e.2.stream.map (fun sid => (sid, config)))
  ∧ sendAttempts (s.BroadcastConfigUpdate config oracle).2
        = sendAttempts (s.BroadcastConfigUpdate config oracle2).2 :=
  ⟨sendAttempts_broadcast s config oracle,
   by rw [sendAttempts_broadcast s config oracle, sendAttempts_broadcast s config oracle2]⟩

/-- C5 counterexample: with one subscribed proxy the single send of a
broadcast happens while the read lock is held, so "Broadcast performs
every send outside the registry's critical section" is false. -/
theorem broadcast_outside_lock_counterexample :
    noSendWhileLocked 0
      ((Server.NewServer.streamRegister infoP1 0).BroadcastConfigUpdate
        (ConfigStore.GetConfig Server.NewServer.configStore) oracleOk).2 = false := by
  decide

/-- C5 (amended): BroadcastConfigUpdate takes no registry copy — it
holds the registry read lock for the whole fan-out, and every send
happens inside that read critical section. -/
theorem broadcast_sends_inside_lock (s : Server) (config : ConfigUpdate)
    (oracle : Nat → ConfigUpdate → Option String) :
    allSendsWhileLocked 0 (s.BroadcastConfigUpdate config oracle).2 = true := by
  rw [Server.BroadcastConfigUpdate]
  show allSendsWhileLocked 0
    (BEvent.rlock :: (broadcastSends s.proxies config oracle ++ [BEvent.runlock])) = true
  rw [allSendsWhileLocked]
  exact allSendsWhileLocked_sends config oracle s.proxies 1 (by omega)

/-- C6: when a second StreamConfig call for the same proxy id replaces
the first call's entry, the first call's deferred cleanup (a delete by
key only) removes the second, still-live call's entry; and that cleanup
composed with registration is exactly what StreamConfig does to the
registry. -/
theorem stale_cleanup_removes_live_entry (s : Server) (info1 info2 : ProxyInfo)
    (sid1 sid2 : Nat) (oracle : Nat → ConfigUpdate → Option String)
    (hid : info1.proxyId = info2.proxyId) :
    mapLookup info2.proxyId
        ((s.streamRegister info1 sid1).streamRegister info2 sid2).proxies
      = some ⟨info2, some sid2⟩
  ∧ mapLookup info2.proxyId
        (((s.streamRegister info1 sid1).streamRegister info2 sid2).streamCleanup
          info1.proxyId).proxies
      = none
  ∧ (s.StreamConfig info1 sid1 oracle).1
      = (s.streamRegister info1 sid1).streamCleanup info1.proxyId := by
  refine ⟨?_, ?_, ?_⟩
  · exact mapLookup_mapInsert_self info2.proxyId _ _
  · rw [hid]
    exact mapLookup_mapDelete info2.proxyId _
  · rw [Server.StreamConfig]
    cases oracle sid1 ((s.streamRegister info1 sid1).configStore.GetConfig) <;> rfl

/-- Witness for C6 with two concrete subscriptions under proxy id p1. -/
theorem stale_cleanup_witness :
    infoP1.proxyId = infoP1b.proxyId
  ∧ mapLookup infoP1b.proxyId
        (((Server.NewServer.streamRegister infoP1 0).streamRegister infoP1b 1).streamCleanup
          infoP1.proxyId).proxies
      = none :=
  ⟨rfl,
   (stale_cleanup_removes_live_entry Server.NewServer infoP1 infoP1b 0 1 oracleOk rfl).2.1⟩

/-- C7: the first (and only initial) message handed to the stream is the
store's current snapshot — on a fresh server version 1 with the single
default route — and a failing initial send makes the call return that
error. -/
theorem initial_push (s : Server) (info : ProxyInfo) (sid : Nat)
    (oracle : Nat → ConfigUpdate → Option String) :
    (s.StreamConfig info sid oracle).2.2.1 = [s.configStore.GetConfig]
  ∧ (Server.NewServer.configStore.GetConfig).version = 1
  ∧ sliceView Server.NewServer.heap (Server.NewServer.configStore.GetConfig).routes
      = [defaultRoute]
  ∧ (∀ e, oracle sid (s.configStore.GetConfig) = some e →
        (s.StreamConfig info sid oracle).2.1 = some e) := by
  have hcfg : (s.streamRegister info sid).configStore.GetConfig
      = s.configStore.GetConfig := rfl
  refine ⟨?_, rfl, by decide, ?_⟩
  · rw [Server.StreamConfig, hcfg]
    cases oracle sid (s.configStore.GetConfig) <;> rfl
  · intro e he
    rw [Server.StreamConfig, hcfg, he]

/-- Witness for C7: on a fresh server with a failing transport, the call
returns the transport's error. -/
theorem initial_push_witness :
    oracleFail 0 (Server.NewServer.configStore.GetConfig) = some "boom"
  ∧ (Server.NewServer.StreamConfig infoP1 0 oracleFail).2.1 = some "boom" :=
  ⟨rfl, (initial_push Server.NewServer infoP1 0 oracleFail).2.2.2 "boom" rfl⟩

/-- C8: BroadcastConfigUpdate mutates nothing — registry, config store
and heap are all returned unchanged, whatever the transport does. -/
theorem broadcast_frame (s : Server) (config : ConfigUpdate)
    (oracle : Nat → ConfigUpdate → Option String) :
    (s.BroadcastConfigUpdate config oracle).1 = s
  ∧ (s.BroadcastConfigUpdate config oracle).1.proxies = s.proxies
  ∧ (s.BroadcastConfigUpdate config oracle).1.configStore = s.configStore
  ∧ (s.BroadcastConfigUpdate config oracle).1.heap = s.heap :=
  ⟨rfl, rfl, rfl, rfl⟩

/-- C9: RegisterProxy always succeeds with a nil error and a message
embedding the proxy id, stores a sink-less entry under that id, and
leaves the config store untouched. -/
theorem register_proxy_spec (s : Server) (info : ProxyInfo) :
    (s.RegisterProxy info).2.1.success = true
  ∧ (s.RegisterProxy info).2.1.message
      = "Proxy " ++ info.proxyId ++ " registered successfully!"
  ∧ (s.RegisterProxy info).2.2 = none
  ∧ mapLookup info.proxyId (s.RegisterProxy info).1.proxies = some ⟨info, none⟩
  ∧ (s.RegisterProxy info).1.configStore = s.configStore
  ∧ (s.RegisterProxy info).1.heap = s.heap :=
  ⟨rfl, rfl, rfl, mapLookup_mapInsert_self info.proxyId ⟨info, none⟩ s.proxies, rfl, rfl⟩

/-- C10: from the fresh store (version 1, default route), AddRoute with
the /api route returns version 2 with routes in order [/, /api]. -/
theorem append_route_scenario :
    (runStore initStore [StoreOp.add routeApi]).2.map ConfigUpdate.version = [(2 : Int)]
  ∧ (runStore initStore [StoreOp.add routeApi]).2.map
        (fun c => sliceView (runStore initStore [StoreOp.add routeApi]).1.1 c.routes)
      = [[defaultRoute, routeApi]]
  ∧ (runStore initStore [StoreOp.add routeApi]).2.map
        (fun c => (sliceView (runStore initStore [StoreOp.add routeApi]).1.1 c.routes).map
          Route.path)
      = [["/", "/api"]] :=
  ⟨by decide, by decide, by decide⟩
